/-
Verification of `basismixer/performance_codec.py` (con-espressione).

Shallow embedding over exact rationals: every numpy float array is a
`List ℚ`.  The numpy operations used by the code (`mean`, `min`, `max`,
`std`, element-wise arithmetic, `np.unique`, `np.where`, `np.diff`,
fancy indexing) are embedded below, each one next to the source line it
models.  Two operations leave ℚ:

* `array.std()` is the square root of the mean squared deviation; ℚ is
  not closed under square roots, so `ratSqrt` returns the exact rational
  square root when one exists and the junk value 0 otherwise (mirroring
  Lean's junk-value convention for division by zero).  No theorem below
  depends on the value of a standardized array, only on whether the
  divisor is zero.
* `x ** e` with a float exponent: `qpow` evaluates the power exactly for
  integral exponents and returns junk 0 for fractional ones; theorems
  about exponentiation carry non-degeneracy hypotheses that make the
  junk branch irrelevant.

Python dicts (the `post_process_config` mapping) are embedded as
association lists with first-match lookup, which agrees with dict lookup
since dict keys are unique.
-/
import Mathlib

namespace PerformanceCodec

/-- numpy `array.mean()`: sum divided by length (junk 0 on the empty
array, where numpy yields nan). -/
def mean (x : List ℚ) : ℚ := x.sum / x.length

/-- numpy `array.min()` on a (nonempty) array; junk 0 on the empty array. -/
def listMin : List ℚ → ℚ
  | [] => 0
  | [a] => a
  | a :: b :: t => min a (listMin (b :: t))

/-- numpy `array.max()` on a (nonempty) array; junk 0 on the empty array. -/
def listMax : List ℚ → ℚ
  | [] => 0
  | [a] => a
  | a :: b :: t => max a (listMax (b :: t))

/-- The mean squared deviation `mean((x - mean x)^2)`: the square of
numpy `array.std()`. -/
def variance (x : List ℚ) : ℚ := mean (x.map (fun a => (a - mean x) ^ 2))

/-- Exact rational square root: `ratSqrt q = r` when `0 ≤ r` and
`r * r = q`, and junk 0 when `q` has no rational square root.  Used to
embed numpy `array.std()`. -/
def ratSqrt (q : ℚ) : ℚ :=
  if q < 0 then 0
  else
    let n := Nat.sqrt q.num.toNat
    let d := Nat.sqrt q.den
    if n * n = q.num.toNat ∧ d * d = q.den then (n : ℚ) / (d : ℚ) else 0

/-- numpy `array.std()`: square root of the mean squared deviation. -/
def npStd (x : List ℚ) : ℚ := ratSqrt (variance x)

/-- Function standardize (performance_codec.py line 16):
`(array - array.mean()) / array.std()`, element-wise, no guard on a zero
divisor. -/
def standardize (x : List ℚ) : List ℚ :=
  x.map (fun a => (a - mean x) / npStd x)

/-- Function minmax_normalize (performance_codec.py line 20):
`(array - array.min()) / (array.max() - array.min())`, element-wise, no
guard on a zero divisor. -/
def minmax_normalize (x : List ℚ) : List ℚ :=
  x.map (fun a => (a - listMin x) / (listMax x - listMin x))

/-- Python float-to-float power `b ** e`, embedded for the exact
fragment: integral exponents use `zpow`; a fractional exponent leaves ℚ
and yields junk 0. -/
def qpow (b e : ℚ) : ℚ := if e.den = 1 then b ^ e.num else 0

/-- numpy `.astype(int)`: truncation toward zero. -/
def intTrunc (q : ℚ) : ℤ := q.num.tdiv q.den

/-- Inner dict of `post_process_config` (e.g. keys `exag_exp` or
`std` / `mean` mapped to numbers). -/
abbrev FieldConfig := List (String × ℚ)

/-- The `post_process_config` dict: field name to inner option dict. -/
abbrev PostProcessConfig := List (String × FieldConfig)

/-- Lines 56-61 of `load_bm_preds`: min-max normalize the raw velocity
trend, then, when the config has a `vel_trend` entry, raise it
element-wise to the `exag_exp` power (default 1.0). -/
def velTrendExag (cfg : PostProcessConfig) (raw : List ℚ) : List ℚ :=
  let vt := minmax_normalize raw
  match cfg.lookup "vel_trend" with
  | some fc => vt.map (fun a => qpow a ((fc.lookup "exag_exp").getD 1))
  | none => vt

/-- Lines 56-63 of `load_bm_preds`: the full velocity-trend transform,
ending with `vel_trend /= vel_trend.mean()`. -/
def velTrendTransform (cfg : PostProcessConfig) (raw : List ℚ) : List ℚ :=
  let vt := velTrendExag cfg raw
  vt.map (fun a => a / mean vt)

/-- Lines 65-95 of `load_bm_preds`, one block per field: standardize the
raw column and, when the config has an entry for `field`, rescale and
recenter by `value * std + mean` (defaults 1.0 and 0.0). -/
def standardizeWithConfig (cfg : PostProcessConfig) (field : String)
    (raw : List ℚ) : List ℚ :=
  let s := standardize raw
  match cfg.lookup field with
  | some fc =>
      s.map (fun a => a * ((fc.lookup "std").getD 1) + ((fc.lookup "mean").getD 0))
  | none => s

/-- The tuple stored per unique score position by `_build_score_dict`
(line 166): `(pitches, ioi, durations, vel_trend, vel_dev, log_bpr,
timing, log_art, melody)`. -/
structure PositionAggregate where
  pitches : List ℤ
  ioi : ℚ
  durations : List ℚ
  vel_trend : ℚ
  vel_dev : List ℚ
  log_bpr : ℚ
  timing : List ℚ
  log_art : List ℚ
  melody : List ℚ
  deriving DecidableEq, Repr, Inhabited

/-- numpy `np.where(onsets == u)[0]` (line 155): the indices, in increasing
order, whose onset equals `u`. -/
def idxsOf (onsets : List ℚ) (u : ℚ) : List ℕ :=
  (List.range onsets.length).filter (fun i => onsets.getD i 0 = u)

/-- numpy `np.unique(onsets)` followed by `sort()` (lines 152-153): the
distinct onset values in ascending order. -/
def uniqueSorted (onsets : List ℚ) : List ℚ :=
  (onsets.dedup).insertionSort (· ≤ ·)

/-- numpy `np.r_[0, np.diff(unique_onsets)]` (line 158): a leading 0 followed
by consecutive differences. -/
def ioiList (us : List ℚ) : List ℚ :=
  0 :: List.zipWith (fun a b => b - a) us us.tail

/-- numpy fancy indexing `x[ix]`: the subsequence of `x` at the index
list `ix` (junk default beyond the bounds, never reached on the index
lists produced by `idxsOf`). -/
def gather {α : Type} [Inhabited α] (x : List α) (ix : List ℕ) : List α :=
  ix.map (fun i => x.getD i default)

/-- Function `_build_score_dict` (lines 111-175), with the Python dict keyed by
unique onsets embedded as the association list built in ascending key
order by the `zip` loop of line 162. -/
def build_score_dict (pitches : List ℤ)
    (onsets durations melody vel_trend vel_dev log_bpr timing log_art : List ℚ) :
    List (ℚ × PositionAggregate) :=
  let unique_onsets := uniqueSorted onsets
  let unique_onset_idxs := unique_onsets.map (idxsOf onsets)
  let iois := ioiList unique_onsets
  (unique_onsets.zip (iois.zip unique_onset_idxs)).map
    (fun p =>
      (p.1,
       { pitches := gather pitches p.2.2
         ioi := p.2.1
         durations := gather durations p.2.2
         vel_trend := mean (gather vel_trend p.2.2)
         vel_dev := gather vel_dev p.2.2
         log_bpr := mean (gather log_bpr p.2.2)
         timing := gather timing p.2.2
         log_art := gather log_art p.2.2
         melody := gather melody p.2.2 }))

/-- The matrix `bm_data = np.loadtxt(filename)` of `load_bm_preds`,
given by its nine row-aligned columns (lines 45-48 name columns 0, 1, 2
and 8; columns 3-7 are the raw expressive parameters of lines 57-90). -/
structure BMData where
  pitchesCol : List ℚ
  onsetsCol : List ℚ
  durationsCol : List ℚ
  velTrendCol : List ℚ
  velDevCol : List ℚ
  logBprCol : List ℚ
  timingCol : List ℚ
  logArtCol : List ℚ
  melodyCol : List ℚ
  deriving DecidableEq, Repr

/-- Function `load_bm_preds` (lines 24-108) after the file read: extract the
columns, shift onsets so the minimum is 0, compute the expressive
parameters (transformed in the expressive path, constants in the
deadpan path), and build the score dict. -/
def load_bm_preds (bm : BMData) (deadpan : Bool)
    (post_process_config : PostProcessConfig) : List (ℚ × PositionAggregate) :=
  let pitches := bm.pitchesCol.map intTrunc
  let onsets := bm.onsetsCol.map (fun a => a - listMin bm.onsetsCol)
  let durations := bm.durationsCol
  let melody := bm.melodyCol
  if deadpan then
    let n_notes := pitches.length
    build_score_dict pitches onsets durations melody
      (List.replicate n_notes 1) (List.replicate n_notes 0)
      (List.replicate n_notes 0) (List.replicate n_notes 0)
      (List.replicate n_notes 0)
  else
    build_score_dict pitches onsets durations melody
      (velTrendTransform post_process_config bm.velTrendCol)
      (standardizeWithConfig post_process_config "vel_dev" bm.velDevCol)
      (standardizeWithConfig post_process_config "log_bpr" bm.logBprCol)
      (standardizeWithConfig post_process_config "timing" bm.timingCol)
      (standardizeWithConfig post_process_config "log_art" bm.logArtCol)

/-- The complete configuration footprint of `load_bm_preds`: the only
reads it performs on `post_process_config` (lines 59-95) are, per field,
the membership test and the `get` of the recognized option names with
their defaults.  Everything the output can depend on is this view. -/
def recognizedView (cfg : PostProcessConfig) :
    Option ℚ × Option (ℚ × ℚ) × Option (ℚ × ℚ) × Option (ℚ × ℚ) × Option (ℚ × ℚ) :=
  ((cfg.lookup "vel_trend").map (fun fc => (fc.lookup "exag_exp").getD 1),
   (cfg.lookup "vel_dev").map (fun fc => ((fc.lookup "std").getD 1, (fc.lookup "mean").getD 0)),
   (cfg.lookup "log_bpr").map (fun fc => ((fc.lookup "std").getD 1, (fc.lookup "mean").getD 0)),
   (cfg.lookup "timing").map (fun fc => ((fc.lookup "std").getD 1, (fc.lookup "mean").getD 0)),
   (cfg.lookup "log_art").map (fun fc => ((fc.lookup "std").getD 1, (fc.lookup "mean").getD 0)))

/-! ### Helper lemmas about the numpy primitives -/

lemma listMin_mem : ∀ {x : List ℚ}, x ≠ [] → listMin x ∈ x
  | [], h => absurd rfl h
  | [a], _ => by simp [listMin]
  | a :: b :: t, _ => by
      rcases min_cases a (listMin (b :: t)) with ⟨h1, _⟩ | ⟨h1, _⟩
      · simp [listMin, h1]
      · have := listMin_mem (x := b :: t) (by simp)
        simp only [listMin, h1]
        exact List.mem_cons_of_mem _ this

lemma listMin_le : ∀ {x : List ℚ} {a : ℚ}, a ∈ x → listMin x ≤ a
  | [], _, h => by simp at h
  | [b], a, h => by simp at h; simp [listMin, h]
  | b :: c :: t, a, h => by
      rcases List.mem_cons.mp h with rfl | h2
      · exact min_le_left _ _
      · exact le_trans (min_le_right _ _) (listMin_le h2)

lemma listMax_mem : ∀ {x : List ℚ}, x ≠ [] → listMax x ∈ x
  | [], h => absurd rfl h
  | [a], _ => by simp [listMax]
  | a :: b :: t, _ => by
      rcases max_cases a (listMax (b :: t)) with ⟨h1, _⟩ | ⟨h1, _⟩
      · simp [listMax, h1]
      · have := listMax_mem (x := b :: t) (by simp)
        simp only [listMax, h1]
        exact List.mem_cons_of_mem _ this

lemma le_listMax : ∀ {x : List ℚ} {a : ℚ}, a ∈ x → a ≤ listMax x
  | [], _, h => by simp at h
  | [b], a, h => by simp at h; simp [listMax, h]
  | b :: c :: t, a, h => by
      rcases List.mem_cons.mp h with rfl | h2
      · exact le_max_left _ _
      · exact le_trans (le_listMax h2) (le_max_right _ _)

lemma listMin_eq_of_mem_iff {x y : List ℚ} (hx : x ≠ []) (hy : y ≠ [])
    (h : ∀ a, a ∈ x ↔ a ∈ y) : listMin x = listMin y :=
  le_antisymm (listMin_le ((h _).mpr (listMin_mem hy)))
    (listMin_le ((h _).mp (listMin_mem hx)))

lemma mean_of_all_eq {x : List ℚ} {c : ℚ} (hx : x ≠ []) (h : ∀ a ∈ x, a = c) :
    mean x = c := by
  have hsum : x.sum = x.length * c := by
    induction x with
    | nil => simp
    | cons a t ih =>
        rcases eq_or_ne t [] with rfl | ht
        · simpa using h a (by simp)
        · have ha := h a (by simp)
          have := ih ht (fun b hb => h b (List.mem_cons_of_mem _ hb))
          simp only [List.sum_cons, this, List.length_cons, ha]
          push_cast
          ring
  have hlen0 : x.length ≠ 0 := fun h => hx (List.length_eq_zero.mp h)
  have hlen : (x.length : ℚ) ≠ 0 := Nat.cast_ne_zero.mpr hlen0
  rw [mean, hsum, mul_comm, mul_div_assoc, div_self hlen, mul_one]

lemma sum_eq_zero_of_nonneg {x : List ℚ} (h0 : ∀ a ∈ x, 0 ≤ a)
    (hs : x.sum = 0) : ∀ a ∈ x, a = 0 := by
  induction x with
  | nil => simp
  | cons a t ih =>
      have ha : 0 ≤ a := h0 a (by simp)
      have ht : 0 ≤ t.sum := List.sum_nonneg (fun b hb => h0 b (List.mem_cons_of_mem _ hb))
      have hsum : a + t.sum = 0 := by simpa using hs
      have ha0 : a = 0 := by linarith
      have hts : t.sum = 0 := by linarith
      intro b hb
      rcases List.mem_cons.mp hb with rfl | hb2
      · exact ha0
      · exact ih (fun c hc => h0 c (List.mem_cons_of_mem _ hc)) hts b hb2

lemma variance_eq_zero_iff {x : List ℚ} (hx : x ≠ []) :
    variance x = 0 ↔ ∃ c, ∀ a ∈ x, a = c := by
  constructor
  · intro hv
    refine ⟨mean x, fun a ha => ?_⟩
    have hlen0 : x.length ≠ 0 := fun h => hx (List.length_eq_zero.mp h)
    have hlen : ((x.map (fun a => (a - mean x) ^ 2)).length : ℚ) ≠ 0 := by
      rw [List.length_map]
      exact Nat.cast_ne_zero.mpr hlen0
    have hsum : (x.map (fun a => (a - mean x) ^ 2)).sum = 0 := by
      have := hv
      rw [variance, mean, div_eq_iff hlen] at this
      simpa using this
    have := sum_eq_zero_of_nonneg (x := x.map (fun a => (a - mean x) ^ 2))
      (by rintro b hb
          rcases List.mem_map.mp hb with ⟨a, _, rfl⟩
          positivity) hsum
    have hz : (a - mean x) ^ 2 = 0 := this _ (List.mem_map.mpr ⟨a, ha, rfl⟩)
    have := pow_eq_zero_iff (n := 2) (by norm_num) |>.mp hz
    linarith
  · rintro ⟨c, hc⟩
    have hm : mean x = c := mean_of_all_eq hx hc
    have : ∀ b ∈ x.map (fun a => (a - mean x) ^ 2), b = 0 := by
      rintro b hb
      rcases List.mem_map.mp hb with ⟨a, ha, rfl⟩
      rw [hc a ha, hm]
      ring
    rcases eq_or_ne x [] with rfl | hne
    · simp at hx
    · exact mean_of_all_eq (by simpa using hne) this

lemma ratSqrt_zero : ratSqrt 0 = 0 := by
  norm_num [ratSqrt]

lemma mem_idxsOf {onsets : List ℚ} {u : ℚ} {i : ℕ} :
    i ∈ idxsOf onsets u ↔ i < onsets.length ∧ onsets.getD i 0 = u := by
  simp [idxsOf, List.mem_filter, List.mem_range, and_comm]

lemma pairwise_idxsOf (onsets : List ℚ) (u : ℚ) :
    (idxsOf onsets u).Pairwise (· < ·) :=
  List.Pairwise.filter _ (List.pairwise_lt_range _)

lemma mem_uniqueSorted {onsets : List ℚ} {u : ℚ} :
    u ∈ uniqueSorted onsets ↔ u ∈ onsets := by
  rw [uniqueSorted, (List.perm_insertionSort _ _).mem_iff, List.mem_dedup]

lemma nodup_uniqueSorted (onsets : List ℚ) : (uniqueSorted onsets).Nodup :=
  (List.perm_insertionSort _ _).nodup_iff.mpr (List.nodup_dedup _)

lemma sorted_le_uniqueSorted (onsets : List ℚ) :
    List.Sorted (· ≤ ·) (uniqueSorted onsets) :=
  List.sorted_insertionSort _ _

lemma sorted_lt_uniqueSorted (onsets : List ℚ) :
    List.Sorted (· < ·) (uniqueSorted onsets) := by
  have hs := sorted_le_uniqueSorted onsets
  have hn := nodup_uniqueSorted onsets
  exact (hs.and hn).imp (fun h => lt_of_le_of_ne h.1 h.2)

lemma uniqueSorted_ne_nil {onsets : List ℚ} (h : onsets ≠ []) :
    uniqueSorted onsets ≠ [] := by
  rcases List.exists_mem_of_ne_nil _ h with ⟨a, ha⟩
  exact List.ne_nil_of_mem (mem_uniqueSorted.mpr ha)

lemma getD_eq_get {α : Type} (l : List α) (d : α) {i : ℕ} (h : i < l.length) :
    l.getD i d = l[i] := by
  rw [List.getD_eq_getElem?_getD, List.getElem?_eq_getElem h]
  rfl

lemma length_ioiList (us : List ℚ) : (ioiList us).length = max us.length 1 := by
  cases us with
  | nil => simp [ioiList]
  | cons a t =>
      simp only [ioiList, List.length_cons, List.length_zipWith, List.tail_cons]
      omega

lemma length_build_score_dict (pitches : List ℤ)
    (onsets durations melody vel_trend vel_dev log_bpr timing log_art : List ℚ) :
    (build_score_dict pitches onsets durations melody vel_trend vel_dev
        log_bpr timing log_art).length = (uniqueSorted onsets).length := by
  simp only [build_score_dict, List.length_map, List.length_zip,
    length_ioiList, List.length_map]
  omega

lemma keys_build_score_dict (pitches : List ℤ)
    (onsets durations melody vel_trend vel_dev log_bpr timing log_art : List ℚ) :
    (build_score_dict pitches onsets durations melody vel_trend vel_dev
        log_bpr timing log_art).map Prod.fst = uniqueSorted onsets := by
  simp only [build_score_dict, List.map_map]
  have : (Prod.fst ∘ fun p : ℚ × (ℚ × List ℕ) =>
      (p.1,
       ({ pitches := gather pitches p.2.2
          ioi := p.2.1
          durations := gather durations p.2.2
          vel_trend := mean (gather vel_trend p.2.2)
          vel_dev := gather vel_dev p.2.2
          log_bpr := mean (gather log_bpr p.2.2)
          timing := gather timing p.2.2
          log_art := gather log_art p.2.2
          melody := gather melody p.2.2 } : PositionAggregate))) = Prod.fst := rfl
  rw [this, List.map_fst_zip]
  simp only [List.length_zip, length_ioiList, List.length_map]
  omega

lemma build_score_dict_getD (pitches : List ℤ)
    (onsets durations melody vel_trend vel_dev log_bpr timing log_art : List ℚ)
    (i : ℕ) (h : i < (uniqueSorted onsets).length) :
    (build_score_dict pitches onsets durations melody vel_trend vel_dev
        log_bpr timing log_art).getD i default =
      ((uniqueSorted onsets).getD i 0,
       { pitches := gather pitches (idxsOf onsets ((uniqueSorted onsets).getD i 0))
         ioi := (ioiList (uniqueSorted onsets)).getD i 0
         durations := gather durations (idxsOf onsets ((uniqueSorted onsets).getD i 0))
         vel_trend := mean (gather vel_trend (idxsOf onsets ((uniqueSorted onsets).getD i 0)))
         vel_dev := gather vel_dev (idxsOf onsets ((uniqueSorted onsets).getD i 0))
         log_bpr := mean (gather log_bpr (idxsOf onsets ((uniqueSorted onsets).getD i 0)))
         timing := gather timing (idxsOf onsets ((uniqueSorted onsets).getD i 0))
         log_art := gather log_art (idxsOf onsets ((uniqueSorted onsets).getD i 0))
         melody := gather melody (idxsOf onsets ((uniqueSorted onsets).getD i 0)) }) := by
  have hlen : i < (build_score_dict pitches onsets durations melody vel_trend
      vel_dev log_bpr timing log_art).length := by
    rw [length_build_score_dict]; exact h
  have hzip : i < ((uniqueSorted onsets).zip
      ((ioiList (uniqueSorted onsets)).zip
        ((uniqueSorted onsets).map (idxsOf onsets)))).length := by
    simp only [List.length_zip, length_ioiList, List.length_map]
    omega
  have hioi : i < (ioiList (uniqueSorted onsets)).length := by
    rw [length_ioiList]; omega
  rw [getD_eq_get _ _ hlen]
  simp only [build_score_dict, List.getElem_map, List.getElem_zip, Option.getD_some]
  rw [getD_eq_get (uniqueSorted onsets) 0 h, getD_eq_get (ioiList (uniqueSorted onsets)) 0 hioi]

lemma ioiList_getD_zero (us : List ℚ) : (ioiList us).getD 0 0 = 0 := rfl

lemma ioiList_getD_succ (us : List ℚ) (i : ℕ) (h : i + 1 < us.length) :
    (ioiList us).getD (i + 1) 0 = us.getD (i + 1) 0 - us.getD i 0 := by
  have ht : i < us.tail.length := by
    rw [List.length_tail]; omega
  have hz : i < (List.zipWith (fun a b => b - a) us us.tail).length := by
    rw [List.length_zipWith]; omega
  rw [ioiList, List.getD_cons_succ, getD_eq_get _ _ hz]
  simp only [List.getElem_zipWith]
  rw [getD_eq_get us 0 h, getD_eq_get us 0 (by omega : i < us.length)]
  simp [List.getElem_tail]

lemma gather_sublist {α : Type} [Inhabited α] (x : List α) (ix : List ℕ)
    (hb : ∀ i ∈ ix, i < x.length) (hs : ix.Pairwise (· < ·)) :
    (gather x ix).Sublist x := by
  have key : gather x ix =
      (ix.attach.map (fun q : {i // i ∈ ix} => (⟨q.1, hb q.1 q.2⟩ : Fin x.length))).map
        (fun j : Fin x.length => x[j]) := by
    rw [List.map_map, gather, ← List.attach_map_val ix (fun i => x.getD i default)]
    refine List.map_congr_left ?_
    rintro ⟨i, hi⟩ _
    exact getD_eq_get x default (hb i hi)
  have hs2 : ix.attach.Pairwise (fun a b : {i // i ∈ ix} => a.1 < b.1) := by
    have hval : List.Pairwise (· < ·) (ix.attach.map Subtype.val) := by
      have : ix.attach.map Subtype.val = ix := by
        simpa using List.attach_map_val ix (fun i => i)
      rw [this]; exact hs
    exact List.pairwise_map.mp hval
  have hpf : (ix.attach.map (fun q : {i // i ∈ ix} =>
      (⟨q.1, hb q.1 q.2⟩ : Fin x.length))).Pairwise (· < ·) :=
    List.pairwise_map.mpr (hs2.imp (fun h => h))
  rw [key]
  exact List.map_getElem_sublist hpf

lemma idxsOf_sublist {α : Type} [Inhabited α] (x : List α) (onsets : List ℚ)
    (u : ℚ) (hlen : x.length = onsets.length) :
    (gather x (idxsOf onsets u)).Sublist x :=
  gather_sublist x _ (fun i hi => hlen ▸ (mem_idxsOf.mp hi).1) (pairwise_idxsOf onsets u)

lemma shifted_listMin_zero (x : List ℚ) (h : x ≠ []) :
    listMin (x.map (fun a => a - listMin x)) = 0 := by
  have hne : x.map (fun a => a - listMin x) ≠ [] := by
    simpa using h
  have hmem0 : (0 : ℚ) ∈ x.map (fun a => a - listMin x) := by
    refine List.mem_map.mpr ⟨listMin x, listMin_mem h, ?_⟩
    ring
  have hlb : ∀ b ∈ x.map (fun a => a - listMin x), 0 ≤ b := by
    rintro b hb
    rcases List.mem_map.mp hb with ⟨a, ha, rfl⟩
    have := listMin_le ha
    linarith
  exact le_antisymm (listMin_le hmem0) (hlb _ (listMin_mem hne))

lemma keys_load_bm_preds (bm : BMData) (deadpan : Bool) (cfg : PostProcessConfig) :
    (load_bm_preds bm deadpan cfg).map Prod.fst =
      uniqueSorted (bm.onsetsCol.map (fun a => a - listMin bm.onsetsCol)) := by
  cases deadpan <;> simp [load_bm_preds, keys_build_score_dict]

lemma idxsOf_ne_nil {onsets : List ℚ} {u : ℚ} (h : u ∈ onsets) :
    idxsOf onsets u ≠ [] := by
  rcases List.mem_iff_getElem.mp h with ⟨j, hj, hval⟩
  refine List.ne_nil_of_mem (a := j) (mem_idxsOf.mpr ⟨hj, ?_⟩)
  rw [getD_eq_get onsets 0 hj]
  exact hval

lemma gather_replicate_all_eq {c : ℚ} {n : ℕ} {ix : List ℕ}
    (hb : ∀ i ∈ ix, i < n) :
    ∀ a ∈ gather (List.replicate n c) ix, a = c := by
  intro a ha
  rcases List.mem_map.mp ha with ⟨i, hi, rfl⟩
  rw [getD_eq_get _ _ (by simpa using hb i hi)]
  simp

lemma gather_ne_nil {α : Type} [Inhabited α] {x : List α} {ix : List ℕ}
    (h : ix ≠ []) : gather x ix ≠ [] := by
  simpa [gather] using h

/-! ### Claim theorems -/

/-- C1: for every non-empty input note table, the per-position index
sets of the output ScoreMap partition the input index range: every note
index below the table length lies in the index set of exactly one key of
the score dict, and every index in any key's index set is below the
table length (no note dropped, none duplicated). -/
theorem grouping_partition (pitches : List ℤ)
    (onsets durations melody vel_trend vel_dev log_bpr timing log_art : List ℚ)
    (hne : onsets ≠ []) :
    (∀ i, i < onsets.length →
      ∃! u, u ∈ (build_score_dict pitches onsets durations melody vel_trend
          vel_dev log_bpr timing log_art).map Prod.fst ∧ i ∈ idxsOf onsets u) ∧
      (∀ u ∈ (build_score_dict pitches onsets durations melody vel_trend
          vel_dev log_bpr timing log_art).map Prod.fst,
        ∀ i ∈ idxsOf onsets u, i < onsets.length) := by
  simp only [keys_build_score_dict]
  constructor
  · intro i hi
    refine ⟨onsets.getD i 0, ⟨?_, ?_⟩, ?_⟩
    · rw [mem_uniqueSorted, getD_eq_get onsets 0 hi]
      exact List.getElem_mem hi
    · exact mem_idxsOf.mpr ⟨hi, rfl⟩
    · rintro u ⟨_, hiu⟩
      exact (mem_idxsOf.mp hiu).2.symm
  · intro u _ i hiu
    exact (mem_idxsOf.mp hiu).1

/-- C1 witness at the spec scenario table (onsets `[2, 2, 3, 5]`). -/
theorem grouping_partition_witness :
    (∀ i, i < ([2, 2, 3, 5] : List ℚ).length →
      ∃! u, u ∈ (build_score_dict [60, 64, 67, 72] [2, 2, 3, 5] [1, 1, 1, 2]
          [1, 0, 0, 1] [1, 2, 3, 4] [1, 2, 3, 4] [1, 2, 3, 4] [1, 2, 3, 4]
          [1, 2, 3, 4]).map Prod.fst ∧ i ∈ idxsOf [2, 2, 3, 5] u) ∧
      (∀ u ∈ (build_score_dict [60, 64, 67, 72] [2, 2, 3, 5] [1, 1, 1, 2]
          [1, 0, 0, 1] [1, 2, 3, 4] [1, 2, 3, 4] [1, 2, 3, 4] [1, 2, 3, 4]
          [1, 2, 3, 4]).map Prod.fst,
        ∀ i ∈ idxsOf [2, 2, 3, 5] u, i < ([2, 2, 3, 5] : List ℚ).length) :=
  grouping_partition [60, 64, 67, 72] [2, 2, 3, 5] [1, 1, 1, 2] [1, 0, 0, 1]
    [1, 2, 3, 4] [1, 2, 3, 4] [1, 2, 3, 4] [1, 2, 3, 4] [1, 2, 3, 4] (by simp)

/-- C2: for every non-empty input, the score-dict keys are strictly
ascending, the first entry's `ioi` is 0, and every later entry's `ioi`
is the difference between its key and the preceding key. -/
theorem ioi_spec (pitches : List ℤ)
    (onsets durations melody vel_trend vel_dev log_bpr timing log_art : List ℚ)
    (hne : onsets ≠ []) :
    List.Sorted (· < ·) ((build_score_dict pitches onsets durations melody
        vel_trend vel_dev log_bpr timing log_art).map Prod.fst) ∧
      ((build_score_dict pitches onsets durations melody vel_trend vel_dev
          log_bpr timing log_art).getD 0 default).2.ioi = 0 ∧
      (∀ i, i + 1 < (build_score_dict pitches onsets durations melody vel_trend
          vel_dev log_bpr timing log_art).length →
        ((build_score_dict pitches onsets durations melody vel_trend vel_dev
            log_bpr timing log_art).getD (i + 1) default).2.ioi =
          ((build_score_dict pitches onsets durations melody vel_trend vel_dev
              log_bpr timing log_art).map Prod.fst).getD (i + 1) 0 -
            ((build_score_dict pitches onsets durations melody vel_trend vel_dev
                log_bpr timing log_art).map Prod.fst).getD i 0) := by
  have h0 : 0 < (uniqueSorted onsets).length :=
    List.length_pos.mpr (uniqueSorted_ne_nil hne)
  refine ⟨?_, ?_, ?_⟩
  · rw [keys_build_score_dict]
    exact sorted_lt_uniqueSorted onsets
  · rw [build_score_dict_getD pitches onsets durations melody vel_trend vel_dev
      log_bpr timing log_art 0 h0]
    exact ioiList_getD_zero (uniqueSorted onsets)
  · intro i hi
    rw [length_build_score_dict] at hi
    rw [keys_build_score_dict,
      build_score_dict_getD pitches onsets durations melody vel_trend vel_dev
        log_bpr timing log_art (i + 1) hi]
    exact ioiList_getD_succ (uniqueSorted onsets) i hi

/-- C2 witness at the spec scenario table (onsets `[2, 2, 3, 5]`). -/
theorem ioi_spec_witness :
    List.Sorted (· < ·) ((build_score_dict [60, 64, 67, 72] [2, 2, 3, 5]
        [1, 1, 1, 2] [1, 0, 0, 1] [1, 2, 3, 4] [1, 2, 3, 4] [1, 2, 3, 4]
        [1, 2, 3, 4] [1, 2, 3, 4]).map Prod.fst) ∧
      ((build_score_dict [60, 64, 67, 72] [2, 2, 3, 5] [1, 1, 1, 2] [1, 0, 0, 1]
          [1, 2, 3, 4] [1, 2, 3, 4] [1, 2, 3, 4] [1, 2, 3, 4]
          [1, 2, 3, 4]).getD 0 default).2.ioi = 0 ∧
      (∀ i, i + 1 < (build_score_dict [60, 64, 67, 72] [2, 2, 3, 5] [1, 1, 1, 2]
          [1, 0, 0, 1] [1, 2, 3, 4] [1, 2, 3, 4] [1, 2, 3, 4] [1, 2, 3, 4]
          [1, 2, 3, 4]).length →
        ((build_score_dict [60, 64, 67, 72] [2, 2, 3, 5] [1, 1, 1, 2] [1, 0, 0, 1]
            [1, 2, 3, 4] [1, 2, 3, 4] [1, 2, 3, 4] [1, 2, 3, 4]
            [1, 2, 3, 4]).getD (i + 1) default).2.ioi =
          ((build_score_dict [60, 64, 67, 72] [2, 2, 3, 5] [1, 1, 1, 2] [1, 0, 0, 1]
              [1, 2, 3, 4] [1, 2, 3, 4] [1, 2, 3, 4] [1, 2, 3, 4]
              [1, 2, 3, 4]).map Prod.fst).getD (i + 1) 0 -
            ((build_score_dict [60, 64, 67, 72] [2, 2, 3, 5] [1, 1, 1, 2] [1, 0, 0, 1]
                [1, 2, 3, 4] [1, 2, 3, 4] [1, 2, 3, 4] [1, 2, 3, 4]
                [1, 2, 3, 4]).map Prod.fst).getD i 0) :=
  ioi_spec [60, 64, 67, 72] [2, 2, 3, 5] [1, 1, 1, 2] [1, 0, 0, 1] [1, 2, 3, 4]
    [1, 2, 3, 4] [1, 2, 3, 4] [1, 2, 3, 4] [1, 2, 3, 4] (by simp)

/-- C8: for every input array whose maximum strictly exceeds its minimum,
`minmax_normalize` produces an array with minimum exactly 0 and maximum
exactly 1. -/
theorem minmax_normalize_min0_max1 (x : List ℚ) (h : listMin x < listMax x) :
    listMin (minmax_normalize x) = 0 ∧ listMax (minmax_normalize x) = 1 := by
  have hx : x ≠ [] := by
    rintro rfl
    simp [listMin, listMax] at h
  have hd : 0 < listMax x - listMin x := by linarith
  have hd0 : listMax x - listMin x ≠ 0 := ne_of_gt hd
  have hne : minmax_normalize x ≠ [] := by
    simp [minmax_normalize, hx]
  have hmem0 : (0 : ℚ) ∈ minmax_normalize x := by
    refine List.mem_map.mpr ⟨listMin x, listMin_mem hx, ?_⟩
    simp
  have hmem1 : (1 : ℚ) ∈ minmax_normalize x := by
    refine List.mem_map.mpr ⟨listMax x, listMax_mem hx, ?_⟩
    field_simp
  have hlb : ∀ b ∈ minmax_normalize x, 0 ≤ b := by
    rintro b hb
    rcases List.mem_map.mp hb with ⟨a, ha, rfl⟩
    have := listMin_le ha
    apply div_nonneg <;> linarith
  have hub : ∀ b ∈ minmax_normalize x, b ≤ 1 := by
    rintro b hb
    rcases List.mem_map.mp hb with ⟨a, ha, rfl⟩
    have := le_listMax ha
    rw [div_le_one hd]
    linarith
  constructor
  · exact le_antisymm (listMin_le hmem0) (hlb _ (listMin_mem hne))
  · exact le_antisymm (hub _ (listMax_mem hne)) (le_listMax hmem1)

/-- C8 witness at `x = [2, 4, 6, 8]`. -/
theorem minmax_normalize_min0_max1_witness :
    listMin (minmax_normalize [2, 4, 6, 8]) = 0 ∧
      listMax (minmax_normalize [2, 4, 6, 8]) = 1 :=
  minmax_normalize_min0_max1 [2, 4, 6, 8] (by norm_num [listMin, listMax])

/-- C9: functions `standardize` and `minmax_normalize` are unguarded divisions.  For
every nonempty array, the divisor of `standardize` vanishes exactly on
constant arrays (`variance x = 0`, hence `npStd x = 0`, a division by
zero producing non-finite output in float semantics), and the divisor
`listMax x - listMin x` of `minmax_normalize` vanishes exactly on the
same degenerate arrays; away from them (`variance x ≠ 0`) the divisions
are by nonzero quantities. -/
theorem standardize_degenerate_divisor (x : List ℚ) (hx : x ≠ []) :
    ((∃ c, ∀ a ∈ x, a = c) ↔ variance x = 0) ∧
      ((∃ c, ∀ a ∈ x, a = c) ↔ listMax x - listMin x = 0) ∧
      ((∃ c, ∀ a ∈ x, a = c) →
        npStd x = 0 ∧ standardize x = x.map (fun a => (a - mean x) / 0)) := by
  have hvar := variance_eq_zero_iff hx
  refine ⟨hvar.symm, ?_, ?_⟩
  · constructor
    · rintro ⟨c, hc⟩
      have h1 := hc _ (listMin_mem hx)
      have h2 := hc _ (listMax_mem hx)
      rw [h1, h2]
      ring
    · intro h
      refine ⟨listMin x, fun a ha => le_antisymm ?_ (listMin_le ha)⟩
      have := le_listMax ha
      linarith
  · intro hc
    have hv : variance x = 0 := hvar.mpr hc
    have hstd : npStd x = 0 := by rw [npStd, hv, ratSqrt_zero]
    exact ⟨hstd, by rw [standardize, hstd]⟩

/-- C9 witness at the constant array `x = [3, 3, 3]`. -/
theorem standardize_degenerate_divisor_witness :
    ((∃ c, ∀ a ∈ ([3, 3, 3] : List ℚ), a = c) ↔ variance [3, 3, 3] = 0) ∧
      ((∃ c, ∀ a ∈ ([3, 3, 3] : List ℚ), a = c) ↔
        listMax [3, 3, 3] - listMin [3, 3, 3] = 0) ∧
      ((∃ c, ∀ a ∈ ([3, 3, 3] : List ℚ), a = c) →
        npStd [3, 3, 3] = 0 ∧
          standardize [3, 3, 3] =
            List.map (fun a => (a - mean [3, 3, 3]) / 0) [3, 3, 3]) :=
  standardize_degenerate_divisor [3, 3, 3] (by simp)


/-- C3: for every non-empty input and every entry of the score dict, the
scalar fields `vel_trend` and `log_bpr` are the arithmetic means of the
per-note values over the indices whose onset equals the key, while
`pitches`, `durations`, `vel_dev`, `timing`, `log_art` and `melody` are
the restrictions of the per-note arrays to those indices and, under
row-alignment, order-preserving subsequences of them. -/
theorem aggregate_fields (pitches : List ℤ)
    (onsets durations melody vel_trend vel_dev log_bpr timing log_art : List ℚ)
    (hne : onsets ≠ [])
    (hp : pitches.length = onsets.length) (hd : durations.length = onsets.length)
    (hvd : vel_dev.length = onsets.length) (hti : timing.length = onsets.length)
    (hla : log_art.length = onsets.length) (hm : melody.length = onsets.length) :
    ∀ p ∈ build_score_dict pitches onsets durations melody vel_trend vel_dev
        log_bpr timing log_art,
      (∀ i, i ∈ idxsOf onsets p.1 ↔ i < onsets.length ∧ onsets.getD i 0 = p.1) ∧
        p.2.vel_trend = mean (gather vel_trend (idxsOf onsets p.1)) ∧
        p.2.log_bpr = mean (gather log_bpr (idxsOf onsets p.1)) ∧
        p.2.pitches = gather pitches (idxsOf onsets p.1) ∧
        p.2.durations = gather durations (idxsOf onsets p.1) ∧
        p.2.vel_dev = gather vel_dev (idxsOf onsets p.1) ∧
        p.2.timing = gather timing (idxsOf onsets p.1) ∧
        p.2.log_art = gather log_art (idxsOf onsets p.1) ∧
        p.2.melody = gather melody (idxsOf onsets p.1) ∧
        p.2.pitches.Sublist pitches ∧ p.2.durations.Sublist durations ∧
        p.2.vel_dev.Sublist vel_dev ∧ p.2.timing.Sublist timing ∧
        p.2.log_art.Sublist log_art ∧ p.2.melody.Sublist melody := by
  intro p hmem
  rcases List.mem_iff_getElem.mp hmem with ⟨i, hi, hget⟩
  have hi2 : i < (uniqueSorted onsets).length := by
    rw [length_build_score_dict] at hi
    exact hi
  have hEq : p = ((uniqueSorted onsets).getD i 0,
      { pitches := gather pitches (idxsOf onsets ((uniqueSorted onsets).getD i 0))
        ioi := (ioiList (uniqueSorted onsets)).getD i 0
        durations := gather durations (idxsOf onsets ((uniqueSorted onsets).getD i 0))
        vel_trend := mean (gather vel_trend (idxsOf onsets ((uniqueSorted onsets).getD i 0)))
        vel_dev := gather vel_dev (idxsOf onsets ((uniqueSorted onsets).getD i 0))
        log_bpr := mean (gather log_bpr (idxsOf onsets ((uniqueSorted onsets).getD i 0)))
        timing := gather timing (idxsOf onsets ((uniqueSorted onsets).getD i 0))
        log_art := gather log_art (idxsOf onsets ((uniqueSorted onsets).getD i 0))
        melody := gather melody (idxsOf onsets ((uniqueSorted onsets).getD i 0)) }) := by
    rw [← build_score_dict_getD pitches onsets durations melody vel_trend vel_dev
      log_bpr timing log_art i hi2, getD_eq_get _ default hi, hget]
  rw [hEq]
  refine ⟨fun j => mem_idxsOf, rfl, rfl, rfl, rfl, rfl, rfl, rfl, rfl,
    idxsOf_sublist pitches onsets _ hp, idxsOf_sublist durations onsets _ hd,
    idxsOf_sublist vel_dev onsets _ hvd, idxsOf_sublist timing onsets _ hti,
    idxsOf_sublist log_art onsets _ hla, idxsOf_sublist melody onsets _ hm⟩

/-- C3 witness: the theorem applied at the spec scenario table (onsets
`[2, 2, 3, 5]`) and at a two-note table with distinct onsets. -/
theorem aggregate_fields_witness :
    (∀ p ∈ build_score_dict [60, 64, 67, 72] [2, 2, 3, 5] [1, 1, 1, 2]
        [1, 0, 0, 1] [1, 2, 3, 4] [1, 2, 3, 4] [1, 2, 3, 4] [1, 2, 3, 4]
        [1, 2, 3, 4],
      (∀ i, i ∈ idxsOf [2, 2, 3, 5] p.1 ↔
          i < ([2, 2, 3, 5] : List ℚ).length ∧ ([2, 2, 3, 5] : List ℚ).getD i 0 = p.1) ∧
        p.2.vel_trend = mean (gather [1, 2, 3, 4] (idxsOf [2, 2, 3, 5] p.1)) ∧
        p.2.log_bpr = mean (gather [1, 2, 3, 4] (idxsOf [2, 2, 3, 5] p.1)) ∧
        p.2.pitches = gather [60, 64, 67, 72] (idxsOf [2, 2, 3, 5] p.1) ∧
        p.2.durations = gather [1, 1, 1, 2] (idxsOf [2, 2, 3, 5] p.1) ∧
        p.2.vel_dev = gather [1, 2, 3, 4] (idxsOf [2, 2, 3, 5] p.1) ∧
        p.2.timing = gather [1, 2, 3, 4] (idxsOf [2, 2, 3, 5] p.1) ∧
        p.2.log_art = gather [1, 2, 3, 4] (idxsOf [2, 2, 3, 5] p.1) ∧
        p.2.melody = gather [1, 0, 0, 1] (idxsOf [2, 2, 3, 5] p.1) ∧
        p.2.pitches.Sublist [60, 64, 67, 72] ∧ p.2.durations.Sublist [1, 1, 1, 2] ∧
        p.2.vel_dev.Sublist [1, 2, 3, 4] ∧ p.2.timing.Sublist [1, 2, 3, 4] ∧
        p.2.log_art.Sublist [1, 2, 3, 4] ∧ p.2.melody.Sublist [1, 0, 0, 1]) ∧
      (∀ p ∈ build_score_dict [40, 50] [1, 2] [1, 1] [0, 1] [5, 7] [5, 7]
          [5, 7] [5, 7] [5, 7],
        (∀ i, i ∈ idxsOf [1, 2] p.1 ↔
            i < ([1, 2] : List ℚ).length ∧ ([1, 2] : List ℚ).getD i 0 = p.1) ∧
          p.2.vel_trend = mean (gather [5, 7] (idxsOf [1, 2] p.1)) ∧
          p.2.log_bpr = mean (gather [5, 7] (idxsOf [1, 2] p.1)) ∧
          p.2.pitches = gather [40, 50] (idxsOf [1, 2] p.1) ∧
          p.2.durations = gather [1, 1] (idxsOf [1, 2] p.1) ∧
          p.2.vel_dev = gather [5, 7] (idxsOf [1, 2] p.1) ∧
          p.2.timing = gather [5, 7] (idxsOf [1, 2] p.1) ∧
          p.2.log_art = gather [5, 7] (idxsOf [1, 2] p.1) ∧
          p.2.melody = gather [0, 1] (idxsOf [1, 2] p.1) ∧
          p.2.pitches.Sublist [40, 50] ∧ p.2.durations.Sublist [1, 1] ∧
          p.2.vel_dev.Sublist [5, 7] ∧ p.2.timing.Sublist [5, 7] ∧
          p.2.log_art.Sublist [5, 7] ∧ p.2.melody.Sublist [0, 1]) :=
  ⟨aggregate_fields [60, 64, 67, 72] [2, 2, 3, 5] [1, 1, 1, 2] [1, 0, 0, 1]
      [1, 2, 3, 4] [1, 2, 3, 4] [1, 2, 3, 4] [1, 2, 3, 4] [1, 2, 3, 4]
      (by simp) (by simp) (by simp) (by simp) (by simp) (by simp) (by simp),
   aggregate_fields [40, 50] [1, 2] [1, 1] [0, 1] [5, 7] [5, 7] [5, 7] [5, 7]
      [5, 7]
      (by simp) (by simp) (by simp) (by simp) (by simp) (by simp) (by simp)⟩


/-- C4: function `load_bm_preds` shifts onsets by their minimum before grouping,
so for every non-empty table the smallest key of the resulting score
dict is exactly 0 -- in the expressive path and in the deadpan path
alike, for every configuration. -/
theorem load_bm_preds_min_key_zero (bm : BMData) (deadpan : Bool)
    (cfg : PostProcessConfig) (hne : bm.onsetsCol ≠ []) :
    listMin ((load_bm_preds bm deadpan cfg).map Prod.fst) = 0 := by
  rw [keys_load_bm_preds]
  have hsh : bm.onsetsCol.map (fun a => a - listMin bm.onsetsCol) ≠ [] := by
    simpa using hne
  have hus : uniqueSorted (bm.onsetsCol.map (fun a => a - listMin bm.onsetsCol)) ≠ [] :=
    uniqueSorted_ne_nil hsh
  rw [listMin_eq_of_mem_iff hus hsh (fun a => mem_uniqueSorted)]
  exact shifted_listMin_zero bm.onsetsCol hne

/-- C4 witness: both paths at a concrete table with onsets `[2, 2, 3, 5]`. -/
theorem load_bm_preds_min_key_zero_witness :
    listMin ((load_bm_preds
        { pitchesCol := [60, 64, 67, 72], onsetsCol := [2, 2, 3, 5],
          durationsCol := [1, 1, 1, 2], velTrendCol := [2, 4, 6, 8],
          velDevCol := [1, 2, 3, 4], logBprCol := [1, 2, 3, 4],
          timingCol := [1, 2, 3, 4], logArtCol := [1, 2, 3, 4],
          melodyCol := [1, 0, 0, 1] } true []).map Prod.fst) = 0 ∧
      listMin ((load_bm_preds
        { pitchesCol := [60, 64, 67, 72], onsetsCol := [2, 2, 3, 5],
          durationsCol := [1, 1, 1, 2], velTrendCol := [2, 4, 6, 8],
          velDevCol := [1, 2, 3, 4], logBprCol := [1, 2, 3, 4],
          timingCol := [1, 2, 3, 4], logArtCol := [1, 2, 3, 4],
          melodyCol := [1, 0, 0, 1] } false []).map Prod.fst) = 0 :=
  ⟨load_bm_preds_min_key_zero _ true [] (by simp),
   load_bm_preds_min_key_zero _ false [] (by simp)⟩

/-- C5: with `deadpan = True`, `load_bm_preds` substitutes the constant
expressive arrays `vel_trend = [1]*N` and
`vel_dev = log_bpr = timing = log_art = [0]*N`, irrespective of the raw
expressive columns and of the configuration; consequently every score
dict entry has `vel_trend = 1`, `log_bpr = 0` and all-zero `vel_dev`,
`timing`, `log_art` subsequences. -/
theorem deadpan_constants (bm : BMData) (cfg : PostProcessConfig)
    (hne : bm.onsetsCol ≠ [])
    (hlen : bm.pitchesCol.length = bm.onsetsCol.length) :
    load_bm_preds bm true cfg =
      build_score_dict (bm.pitchesCol.map intTrunc)
        (bm.onsetsCol.map (fun a => a - listMin bm.onsetsCol)) bm.durationsCol
        bm.melodyCol
        (List.replicate (bm.pitchesCol.map intTrunc).length 1)
        (List.replicate (bm.pitchesCol.map intTrunc).length 0)
        (List.replicate (bm.pitchesCol.map intTrunc).length 0)
        (List.replicate (bm.pitchesCol.map intTrunc).length 0)
        (List.replicate (bm.pitchesCol.map intTrunc).length 0) ∧
      (∀ (cfg2 : PostProcessConfig) (bm2 : BMData),
        bm2.pitchesCol = bm.pitchesCol → bm2.onsetsCol = bm.onsetsCol →
        bm2.durationsCol = bm.durationsCol → bm2.melodyCol = bm.melodyCol →
        load_bm_preds bm2 true cfg2 = load_bm_preds bm true cfg) ∧
      (∀ p ∈ load_bm_preds bm true cfg,
        p.2.vel_trend = 1 ∧ p.2.log_bpr = 0 ∧
          (∀ a ∈ p.2.vel_dev, a = 0) ∧ (∀ a ∈ p.2.timing, a = 0) ∧
          (∀ a ∈ p.2.log_art, a = 0)) := by
  refine ⟨rfl, ?_, ?_⟩
  · intro cfg2 bm2 h1 h2 h3 h4
    simp [load_bm_preds, h1, h2, h3, h4]
  · intro p hp
    set onsets := bm.onsetsCol.map (fun a => a - listMin bm.onsetsCol) with honsets
    have hn : (bm.pitchesCol.map intTrunc).length = onsets.length := by
      simp [honsets, hlen]
    rcases List.mem_iff_getElem.mp hp with ⟨i, hi, hget⟩
    have hi2 : i < (uniqueSorted onsets).length := by
      have : (load_bm_preds bm true cfg).length = (uniqueSorted onsets).length := by
        simpa [load_bm_preds, if_pos rfl] using
          length_build_score_dict (bm.pitchesCol.map intTrunc) onsets
            bm.durationsCol bm.melodyCol
            (List.replicate (bm.pitchesCol.map intTrunc).length 1)
            (List.replicate (bm.pitchesCol.map intTrunc).length 0)
            (List.replicate (bm.pitchesCol.map intTrunc).length 0)
            (List.replicate (bm.pitchesCol.map intTrunc).length 0)
            (List.replicate (bm.pitchesCol.map intTrunc).length 0)
      rw [this] at hi
      exact hi
    have hu : (uniqueSorted onsets).getD i 0 ∈ onsets := by
      rw [getD_eq_get _ 0 hi2]
      exact mem_uniqueSorted.mp (List.getElem_mem hi2)
    have hixne : idxsOf onsets ((uniqueSorted onsets).getD i 0) ≠ [] :=
      idxsOf_ne_nil hu
    have hb : ∀ j ∈ idxsOf onsets ((uniqueSorted onsets).getD i 0),
        j < (bm.pitchesCol.map intTrunc).length := by
      intro j hj
      rw [hn]
      exact (mem_idxsOf.mp hj).1
    have hEq : p = ((uniqueSorted onsets).getD i 0,
        { pitches := gather (bm.pitchesCol.map intTrunc)
            (idxsOf onsets ((uniqueSorted onsets).getD i 0))
          ioi := (ioiList (uniqueSorted onsets)).getD i 0
          durations := gather bm.durationsCol
            (idxsOf onsets ((uniqueSorted onsets).getD i 0))
          vel_trend := mean (gather (List.replicate (bm.pitchesCol.map intTrunc).length 1)
            (idxsOf onsets ((uniqueSorted onsets).getD i 0)))
          vel_dev := gather (List.replicate (bm.pitchesCol.map intTrunc).length 0)
            (idxsOf onsets ((uniqueSorted onsets).getD i 0))
          log_bpr := mean (gather (List.replicate (bm.pitchesCol.map intTrunc).length 0)
            (idxsOf onsets ((uniqueSorted onsets).getD i 0)))
          timing := gather (List.replicate (bm.pitchesCol.map intTrunc).length 0)
            (idxsOf onsets ((uniqueSorted onsets).getD i 0))
          log_art := gather (List.replicate (bm.pitchesCol.map intTrunc).length 0)
            (idxsOf onsets ((uniqueSorted onsets).getD i 0))
          melody := gather bm.melodyCol
            (idxsOf onsets ((uniqueSorted onsets).getD i 0)) }) := by
      rw [← build_score_dict_getD (bm.pitchesCol.map intTrunc) onsets
        bm.durationsCol bm.melodyCol
        (List.replicate (bm.pitchesCol.map intTrunc).length 1)
        (List.replicate (bm.pitchesCol.map intTrunc).length 0)
        (List.replicate (bm.pitchesCol.map intTrunc).length 0)
        (List.replicate (bm.pitchesCol.map intTrunc).length 0)
        (List.replicate (bm.pitchesCol.map intTrunc).length 0) i hi2]
      have : load_bm_preds bm true cfg =
          build_score_dict (bm.pitchesCol.map intTrunc) onsets bm.durationsCol
            bm.melodyCol
            (List.replicate (bm.pitchesCol.map intTrunc).length 1)
            (List.replicate (bm.pitchesCol.map intTrunc).length 0)
            (List.replicate (bm.pitchesCol.map intTrunc).length 0)
            (List.replicate (bm.pitchesCol.map intTrunc).length 0)
            (List.replicate (bm.pitchesCol.map intTrunc).length 0) := rfl
      rw [← this, getD_eq_get _ default hi, hget]
    rw [hEq]
    refine ⟨?_, ?_, gather_replicate_all_eq hb, gather_replicate_all_eq hb,
      gather_replicate_all_eq hb⟩
    · exact mean_of_all_eq (gather_ne_nil hixne) (gather_replicate_all_eq hb)
    · exact mean_of_all_eq (gather_ne_nil hixne) (gather_replicate_all_eq hb)

/-- C5 witness at a concrete table with onsets `[2, 2, 3, 5]` and an
arbitrary non-empty configuration. -/
theorem deadpan_constants_witness :
    load_bm_preds
        { pitchesCol := [60, 64, 67, 72], onsetsCol := [2, 2, 3, 5],
          durationsCol := [1, 1, 1, 2], velTrendCol := [2, 4, 6, 8],
          velDevCol := [1, 2, 3, 4], logBprCol := [1, 2, 3, 4],
          timingCol := [1, 2, 3, 4], logArtCol := [1, 2, 3, 4],
          melodyCol := [1, 0, 0, 1] } true [("vel_trend", [("exag_exp", 3)])] =
      build_score_dict
        (([60, 64, 67, 72] : List ℚ).map intTrunc)
        (([2, 2, 3, 5] : List ℚ).map (fun a => a - listMin [2, 2, 3, 5]))
        [1, 1, 1, 2] [1, 0, 0, 1]
        (List.replicate (([60, 64, 67, 72] : List ℚ).map intTrunc).length 1)
        (List.replicate (([60, 64, 67, 72] : List ℚ).map intTrunc).length 0)
        (List.replicate (([60, 64, 67, 72] : List ℚ).map intTrunc).length 0)
        (List.replicate (([60, 64, 67, 72] : List ℚ).map intTrunc).length 0)
        (List.replicate (([60, 64, 67, 72] : List ℚ).map intTrunc).length 0) ∧
      (∀ (cfg2 : PostProcessConfig) (bm2 : BMData),
        bm2.pitchesCol = [60, 64, 67, 72] → bm2.onsetsCol = [2, 2, 3, 5] →
        bm2.durationsCol = [1, 1, 1, 2] → bm2.melodyCol = [1, 0, 0, 1] →
        load_bm_preds bm2 true cfg2 =
          load_bm_preds
            { pitchesCol := [60, 64, 67, 72], onsetsCol := [2, 2, 3, 5],
              durationsCol := [1, 1, 1, 2], velTrendCol := [2, 4, 6, 8],
              velDevCol := [1, 2, 3, 4], logBprCol := [1, 2, 3, 4],
              timingCol := [1, 2, 3, 4], logArtCol := [1, 2, 3, 4],
              melodyCol := [1, 0, 0, 1] } true [("vel_trend", [("exag_exp", 3)])]) ∧
      (∀ p ∈ load_bm_preds
          { pitchesCol := [60, 64, 67, 72], onsetsCol := [2, 2, 3, 5],
            durationsCol := [1, 1, 1, 2], velTrendCol := [2, 4, 6, 8],
            velDevCol := [1, 2, 3, 4], logBprCol := [1, 2, 3, 4],
            timingCol := [1, 2, 3, 4], logArtCol := [1, 2, 3, 4],
            melodyCol := [1, 0, 0, 1] } true [("vel_trend", [("exag_exp", 3)])],
        p.2.vel_trend = 1 ∧ p.2.log_bpr = 0 ∧
          (∀ a ∈ p.2.vel_dev, a = 0) ∧ (∀ a ∈ p.2.timing, a = 0) ∧
          (∀ a ∈ p.2.log_art, a = 0)) :=
  deadpan_constants _ [("vel_trend", [("exag_exp", 3)])] (by simp) (by simp)

lemma sum_map_div (x : List ℚ) (m : ℚ) :
    (x.map (fun a => a / m)).sum = x.sum / m := by
  induction x with
  | nil => simp
  | cons a t ih => simp [ih, add_div]

lemma qpow_one (a : ℚ) : qpow a 1 = a := by
  simp [qpow]

/-- C6: whenever the raw velocity-trend column is not constant and the
exaggerated (post-min-max, post-power) array has nonzero mean, the final
velocity trend produced by the normalize, exaggerate,
divide-by-own-mean pipeline has arithmetic mean exactly 1 -- for every
configuration, including one with no `vel_trend` entry. -/
theorem velTrend_unit_mean (cfg : PostProcessConfig) (raw : List ℚ)
    (hnc : listMin raw < listMax raw)
    (hmean : mean (velTrendExag cfg raw) ≠ 0) :
    mean (velTrendTransform cfg raw) = 1 := by
  simp only [velTrendTransform]
  rw [mean, sum_map_div, List.length_map, div_right_comm]
  have hm : (velTrendExag cfg raw).sum / ((velTrendExag cfg raw).length : ℚ) =
      mean (velTrendExag cfg raw) := rfl
  rw [hm, div_self hmean]

/-- C6 witness: exaggeration exponent 2 on the raw column `[2, 4, 6, 8]`. -/
theorem velTrend_unit_mean_witness :
    mean (velTrendTransform [("vel_trend", [("exag_exp", 2)])] [2, 4, 6, 8]) = 1 :=
  velTrend_unit_mean [("vel_trend", [("exag_exp", 2)])] [2, 4, 6, 8]
    (by norm_num [listMin, listMax])
    (by norm_num [velTrendExag, minmax_normalize, mean, listMin, listMax, qpow,
      List.lookup])

/-- C7: a field name absent from the configuration, or present with its
recognized options absent, yields the identity-default transform: the
output equals what the empty configuration produces for that field
(exponent 1.0 for `vel_trend`; std 1.0 and mean 0.0 for the
standardized fields). -/
theorem config_identity_defaults (cfg : PostProcessConfig) :
    (∀ raw : List ℚ,
      (cfg.lookup "vel_trend" = none ∨
        ∃ fc, cfg.lookup "vel_trend" = some fc ∧ fc.lookup "exag_exp" = none) →
      velTrendTransform cfg raw = velTrendTransform [] raw) ∧
      (∀ (field : String) (raw : List ℚ),
        (cfg.lookup field = none ∨
          ∃ fc, cfg.lookup field = some fc ∧ fc.lookup "std" = none ∧
            fc.lookup "mean" = none) →
        standardizeWithConfig cfg field raw = standardizeWithConfig [] field raw) := by
  constructor
  · intro raw h
    have hexag : velTrendExag cfg raw = velTrendExag [] raw := by
      rcases h with h | ⟨fc, hfc, hnone⟩
      · simp [velTrendExag, h, List.lookup]
      · simp [velTrendExag, hfc, hnone, qpow_one, List.lookup]
    simp only [velTrendTransform, hexag]
  · intro f raw h
    rcases h with h | ⟨fc, hfc, hstd, hm⟩
    · simp [standardizeWithConfig, h, List.lookup]
    · simp [standardizeWithConfig, hfc, hstd, hm, List.lookup]

/-- C7 witness: a configuration whose `vel_dev` entry is irrelevant to
`vel_trend` and `timing`, and a `vel_trend` entry with no recognized
option. -/
theorem config_identity_defaults_witness :
    (velTrendTransform [("vel_dev", [("std", 2)])] [2, 4, 6, 8] =
        velTrendTransform [] [2, 4, 6, 8]) ∧
      (standardizeWithConfig [("vel_dev", [("std", 2)])] "timing" [1, 2, 3, 4] =
        standardizeWithConfig [] "timing" [1, 2, 3, 4]) ∧
      (velTrendTransform [("vel_trend", [("bogus", 2)])] [2, 4, 6, 8] =
        velTrendTransform [] [2, 4, 6, 8]) :=
  ⟨(config_identity_defaults [("vel_dev", [("std", 2)])]).1 [2, 4, 6, 8]
      (Or.inl rfl),
   (config_identity_defaults [("vel_dev", [("std", 2)])]).2 "timing" [1, 2, 3, 4]
      (Or.inl rfl),
   (config_identity_defaults [("vel_trend", [("bogus", 2)])]).1 [2, 4, 6, 8]
      (Or.inr ⟨[("bogus", 2)], rfl, rfl⟩)⟩

lemma velTrendExag_congr {cfg1 cfg2 : PostProcessConfig}
    (h : (cfg1.lookup "vel_trend").map (fun fc => (fc.lookup "exag_exp").getD 1) =
      (cfg2.lookup "vel_trend").map (fun fc => (fc.lookup "exag_exp").getD 1))
    (raw : List ℚ) : velTrendExag cfg1 raw = velTrendExag cfg2 raw := by
  cases h1 : cfg1.lookup "vel_trend" with
  | none =>
      cases h2 : cfg2.lookup "vel_trend" with
      | none => simp [velTrendExag, h1, h2]
      | some fc2 => rw [h1, h2] at h; simp at h
  | some fc =>
      cases h2 : cfg2.lookup "vel_trend" with
      | none => rw [h1, h2] at h; simp at h
      | some fc2 =>
          rw [h1, h2] at h
          simp at h
          simp [velTrendExag, h1, h2, h]

lemma standardizeWithConfig_congr {cfg1 cfg2 : PostProcessConfig} (f : String)
    (h : (cfg1.lookup f).map
        (fun fc => ((fc.lookup "std").getD 1, (fc.lookup "mean").getD 0)) =
      (cfg2.lookup f).map
        (fun fc => ((fc.lookup "std").getD 1, (fc.lookup "mean").getD 0)))
    (raw : List ℚ) :
    standardizeWithConfig cfg1 f raw = standardizeWithConfig cfg2 f raw := by
  cases h1 : cfg1.lookup f with
  | none =>
      cases h2 : cfg2.lookup f with
      | none => simp [standardizeWithConfig, h1, h2]
      | some fc2 => rw [h1, h2] at h; simp at h
  | some fc =>
      cases h2 : cfg2.lookup f with
      | none => rw [h1, h2] at h; simp at h
      | some fc2 =>
          rw [h1, h2] at h
          simp at h
          simp [standardizeWithConfig, h1, h2, h.1, h.2]

/-- C10: function `load_bm_preds` reads its configuration and never writes it (the
embedding is a pure function of the configuration value), and its output
depends on the configuration only through the recognized field entries:
two configurations with the same recognized view give identical outputs
on every table, in both paths. -/
theorem config_read_only (cfg1 cfg2 : PostProcessConfig)
    (h : recognizedView cfg1 = recognizedView cfg2) (bm : BMData)
    (deadpan : Bool) :
    load_bm_preds bm deadpan cfg1 = load_bm_preds bm deadpan cfg2 := by
  simp only [recognizedView, Prod.mk.injEq] at h
  obtain ⟨h1, h2, h3, h4, h5⟩ := h
  have e1 : velTrendTransform cfg1 bm.velTrendCol =
      velTrendTransform cfg2 bm.velTrendCol := by
    simp only [velTrendTransform, velTrendExag_congr h1 bm.velTrendCol]
  have e2 := standardizeWithConfig_congr "vel_dev" h2 bm.velDevCol
  have e3 := standardizeWithConfig_congr "log_bpr" h3 bm.logBprCol
  have e4 := standardizeWithConfig_congr "timing" h4 bm.timingCol
  have e5 := standardizeWithConfig_congr "log_art" h5 bm.logArtCol
  cases deadpan with
  | true => simp [load_bm_preds]
  | false => simp [load_bm_preds, e1, e2, e3, e4, e5]

/-- C10 witness: a configuration with an unrecognized top-level key and
an unrecognized inner key agrees on the recognized view with its
cleaned-up counterpart, and the outputs coincide on a concrete table. -/
theorem config_read_only_witness :
    load_bm_preds
        { pitchesCol := [60, 64, 67, 72], onsetsCol := [2, 2, 3, 5],
          durationsCol := [1, 1, 1, 2], velTrendCol := [2, 4, 6, 8],
          velDevCol := [1, 2, 3, 4], logBprCol := [1, 2, 3, 4],
          timingCol := [1, 2, 3, 4], logArtCol := [1, 2, 3, 4],
          melodyCol := [1, 0, 0, 1] } false
        [("vel_trend", [("exag_exp", 2), ("extra", 9)]), ("unknown", [])] =
      load_bm_preds
        { pitchesCol := [60, 64, 67, 72], onsetsCol := [2, 2, 3, 5],
          durationsCol := [1, 1, 1, 2], velTrendCol := [2, 4, 6, 8],
          velDevCol := [1, 2, 3, 4], logBprCol := [1, 2, 3, 4],
          timingCol := [1, 2, 3, 4], logArtCol := [1, 2, 3, 4],
          melodyCol := [1, 0, 0, 1] } false
        [("vel_trend", [("exag_exp", 2)])] :=
  config_read_only [("vel_trend", [("exag_exp", 2), ("extra", 9)]), ("unknown", [])]
    [("vel_trend", [("exag_exp", 2)])] rfl _ false

end PerformanceCodec
